import Mathlib

/-!
# Verification of `scripts/create_parquet.py`

A shallow embedding of the target-size-driven Parquet generator:

* `makeRowgroup` embeds `make_rowgroup` (the 20-column row-batch synthesizer);
* `writeLoop` / `writeToTarget` embed `write_to_target` (the size-convergence
  writer loop, its unlink-on-entry, its row-group cap and its `finally` close);
* `processTargets` embeds the per-target loop of `main`.

External collaborators are modelled, not reimplemented:

* numpy's `Generator` is modelled as a deterministic stream of naturals
  (`Rng`): each sampling primitive (`zipf`, `integers`, `random`, `lognormal`,
  `geometric`, `standard_normal`, `exponential`, `beta`, `choice`) consumes one
  stream element per sample and maps it deterministically into its codomain.
  The numeric law of each distribution lives inside numpy and is irrelevant to
  the claims; what is kept faithful is that a single seeded source drives every
  column, that every call advances the state, and the exact post-processing the
  script applies to the samples (mod, shift, round, compare with a threshold).
* `numpy.apply_along_axis` raises `ValueError` when an iteration dimension is
  empty; `applyAlongAxisJoin` keeps that failure.
* the Parquet sink (`pyarrow.parquet.ParquetWriter` plus `out_path.stat()`) is
  modelled by `SinkModel`: a reported-size function of the number of appended
  row groups, plus flags for open/append failures. Python floats in the stop
  condition `size >= target_bytes * (1.0 + overshoot_pct)` are modelled as
  exact rationals.
-/

namespace CreateParquet

/-- Deterministic model of `numpy.random.Generator`: an infinite stream of
naturals together with a cursor. Every sampling call reads consecutive stream
elements and advances the cursor, so one source drives all columns and each
call advances the state, as in the script. -/
structure Rng where
  next : Nat → Nat
  pos : Nat

/-- Read `n` consecutive stream elements and advance the cursor. -/
def Rng.draws (r : Rng) (n : Nat) : List Nat × Rng :=
  ((List.range n).map fun i => r.next (r.pos + i), ⟨r.next, r.pos + n⟩)

/-- 2^64, the word size of the modelled bit generator. -/
def U64 : Nat := 18446744073709551616

/-- 2^53, granularity of the `random()` unit-interval samples. -/
def UNIT : Nat := 9007199254740992

/-- A stream element mapped into the unit interval, the model of one
`Generator.random()` sample. (Written with `mkRat` so that it evaluates by
kernel reduction.) -/
def unitVal (d : Nat) : ℚ := mkRat (d % UNIT : Nat) UNIT

/-- Model of `np.random.default_rng(seed)`: a concrete LCG-mixed stream.
Stands in for PCG64, which is external library state; any deterministic
function of the seed is a faithful model for the claims at hand. -/
def mkRng (seed : Nat) : Rng :=
  ⟨fun i => (6364136223846793005 * (seed + i) + 1442695040888963407) % U64, 0⟩

/-- Model of `rng.integers(lo, hi, size=n)`: `n` naturals in `[lo, hi)`. -/
def integersVec (r : Rng) (lo hi n : Nat) : List Nat × Rng :=
  let p := r.draws n
  (p.1.map fun d => lo + d % (hi - lo), p.2)

/-- Model of `rng.random(n)`: `n` rationals in `[0, 1)`. -/
def randomVec (r : Rng) (n : Nat) : List ℚ × Rng :=
  let p := r.draws n
  (p.1.map unitVal, p.2)

/-- Model of `rng.zipf(a=1.5, size=n)`: positive naturals. -/
def zipfVec (r : Rng) (n : Nat) : List Nat × Rng :=
  let p := r.draws n
  (p.1.map fun d => d + 1, p.2)

/-- Model of `rng.lognormal(mean=2.8, sigma=1.2, size=n)`: nonnegative
rationals, one stream element per sample. -/
def lognormalVec (r : Rng) (n : Nat) : List ℚ × Rng :=
  let p := r.draws n
  (p.1.map fun d => mkRat (d % UNIT * 1000 : Nat) UNIT, p.2)

/-- Model of `rng.geometric(p=0.45, size=n)`: positive small naturals. -/
def geometricVec (r : Rng) (n : Nat) : List Nat × Rng :=
  let p := r.draws n
  (p.1.map fun d => d % 32 + 1, p.2)

/-- Model of `rng.standard_normal(n)`: zero-centered rationals. -/
def standardNormalVec (r : Rng) (n : Nat) : List ℚ × Rng :=
  let p := r.draws n
  (p.1.map fun d => mkRat (((d % UNIT * 8 : Nat) : Int) - ((4 * UNIT : Nat) : Int)) UNIT, p.2)

/-- Model of `rng.exponential(scale=120.0, size=n)`. -/
def exponentialVec (r : Rng) (n : Nat) : List ℚ × Rng :=
  let p := r.draws n
  (p.1.map fun d => mkRat (d % UNIT * 1200 : Nat) UNIT, p.2)

/-- Model of `rng.beta(a=5.0, b=2.0, size=n)`: rationals in `[0, 1)`. -/
def betaVec (r : Rng) (n : Nat) : List ℚ × Rng :=
  let p := r.draws n
  (p.1.map unitVal, p.2)

/-- Arrow column types used by the script's explicit `pa.array` calls. -/
inductive PType
  | int64
  | int16
  | float64
  | float32
  | boolean
  | utf8
  | timestampMs
deriving DecidableEq, Repr

/-- One cell of a column: a concrete value or a null. Python floats are
modelled as exact rationals. -/
inductive Cell
  | int (i : Int)
  | flt (q : ℚ)
  | str (s : String)
  | bool (b : Bool)
  | null
deriving DecidableEq, Repr

/-- One named, typed column of a batch. -/
structure Column where
  name : String
  dtype : PType
  values : List Cell
deriving DecidableEq, Repr

/-- A batch (`pa.Table`): the script's dict of 20 columns, in order. -/
abbrev Table := List Column

/-- `np.round(x, 2)` modelled on rationals: keep two decimal digits.
`(q.num * 100).fdiv q.den` is the floor of `q * 100`, written on the raw
numerator and denominator so that it evaluates by kernel reduction. -/
def round2 (q : ℚ) : ℚ := mkRat ((q.num * 100).fdiv q.den) 100

/-- `np.round(x, 1)` modelled on rationals: keep one decimal digit. -/
def round1 (q : ℚ) : ℚ := mkRat ((q.num * 10).fdiv q.den) 10

/-- The affine map `q * 4 + 1` of line 115, on raw numerator/denominator. -/
def betaAffine (q : ℚ) : ℚ := mkRat (q.num * 4 + q.den) q.den

/-- Threshold constants of the script's Bernoulli draws and null masks:
`0.02` (line 118), `0.55` (line 119), `0.8` (line 173), `0.03` (line 198),
`0.01` (line 199). -/
def P02 : ℚ := mkRat 2 100

/-- `0.55`, the `is_mobile` threshold (line 119). -/
def P55 : ℚ := mkRat 55 100

/-- `0.8`, the payload `ok` threshold (line 173). -/
def P80 : ℚ := mkRat 80 100

/-- `0.03`, the `url` null-mask threshold (line 198). -/
def P03 : ℚ := mkRat 3 100

/-- `0.01`, the `country` null-mask threshold (line 199). -/
def P01 : ℚ := mkRat 1 100

/-- The `country_codes` vocabulary (line 122). -/
def countryCodes : List String :=
  ["US", "CA", "GB", "DE", "FR", "NL", "SE", "NO", "ES", "IT", "BR", "IN", "JP", "AU"]

/-- The `channel_vals` vocabulary (line 143). -/
def channelVals : List String := ["organic", "paid", "email", "referral", "social"]

/-- The `pages` vocabulary (line 159). -/
def pages : List String :=
  ["/home", "/search", "/product", "/cart", "/checkout", "/account", "/help"]

/-- The uppercase alphabet used for SKU letters (line 150). -/
def upperLetters : List Char := "ABCDEFGHIJKLMNOPQRSTUVWXYZ".data

/-- The lowercase alphabet used by `two_letter` (lines 179-180). -/
def lowerLetters : List Char := "abcdefghijklmnopqrstuvwxyz".data

/-- `two_letter` (lines 175-181): index `x` in `[0, 26^2)` rendered as two
lowercase letters. -/
def twoLetter (x : Nat) : String :=
  String.mk [lowerLetters.getD (x / 26) 'a', lowerLetters.getD (x % 26) 'a']

/-- Model of `np.apply_along_axis("".join, 1, rows)`: numpy raises
`ValueError` when the iteration dimension is empty (zero rows), and joins each
row of characters otherwise. -/
def applyAlongAxisJoin (rows : List (List Char)) : Except String (List String) :=
  if rows.isEmpty then
    .error "Cannot apply_along_axis when any iteration dimensions are 0"
  else
    .ok (rows.map fun cs => String.mk cs)

/-- The JSON-ish payload of one row (lines 185-194). -/
def payloadStr (key1 : String) (v1 : Nat) (key2 : String) (v2 : Nat) (ok : Bool) : String :=
  "\x7b\"" ++ key1 ++ "\":" ++ toString v1 ++ ",\"" ++ key2 ++ "\":" ++ toString v2 ++
    (if ok then ",\"ok\":true\x7d" else ",\"ok\":false\x7d")

/-- Milliseconds in the 7-day timestamp window (line 93). -/
def WEEK_MS : Int := 604800000

/-- Embedding of `make_rowgroup` (lines 63-233). Draws are consumed in the
source's order; the only failure point is numpy's `apply_along_axis` on an
empty axis, reached exactly when `nRows = 0`. The advanced generator is
returned alongside the batch, matching the script's in-place mutation of
`rng`. -/
def makeRowgroup (nRows : Nat) (rng : Rng) (baseId : Int) (startTsMs : Int) :
    Except String (Table × Rng) :=
  let ids : List Int := (List.range nRows).map fun i => baseId + Int.ofNat i
  let z := zipfVec rng nRows
  let userId : List Int := z.1.map fun v => Int.ofNat (v % 5000000) + 1
  let se := integersVec z.2 1 50000000 nRows
  let sessionId : List Int := se.1.map Int.ofNat
  let ji := integersVec se.2 0 2000 nRows
  let ts : List Int := (ids.zip ji.1).map fun p => startTsMs + p.1 % WEEK_MS + Int.ofNat p.2
  let pr := lognormalVec ji.2 nRows
  let price : List ℚ := pr.1.map round2
  let qu := geometricVec pr.2 nRows
  let quantity : List Int := qu.1.map Int.ofNat
  let sc := standardNormalVec qu.2 nRows
  let score : List ℚ := sc.1
  let la := exponentialVec sc.2 nRows
  let latencyMs : List ℚ := la.1.map round1
  let be := betaVec la.2 nRows
  let rating : List ℚ := be.1.map fun q => round1 (betaAffine q)
  let rf := randomVec be.2 nRows
  let isRefund : List Bool := rf.1.map fun q => decide (q < P02)
  let mo := randomVec rf.2 nRows
  let isMobile : List Bool := mo.1.map fun q => decide (q < P55)
  let co := integersVec mo.2 0 countryCodes.length nRows
  let country : List String := co.1.map fun i => countryCodes.getD i ""
  let ch := integersVec co.2 0 channelVals.length nRows
  let channel : List String := ch.1.map fun i => channelVals.getD i ""
  let sl := Rng.draws ch.2 (nRows * 5)
  let skuRows : List (List Char) := (List.range nRows).map fun i =>
    (List.range 5).map fun j => upperLetters.getD (sl.1.getD (i * 5 + j) 0 % 26) 'A'
  let sn := integersVec sl.2 0 10000 nRows
  match applyAlongAxisJoin skuRows with
  | .error e => .error e
  | .ok skuJoined =>
    let productSku : List String :=
      (skuJoined.zip sn.1).map fun p => "SKU-" ++ p.1 ++ "-" ++ toString p.2
    let pg := integersVec sn.2 0 pages.length nRows
    let page : List String := pg.1.map fun i => pages.getD i ""
    let qv := integersVec pg.2 0 10000000 nRows
    let url0 : List String := (page.zip qv.1).map fun p => p.1 ++ "?q=" ++ toString p.2
    let k1 := integersVec qv.2 0 676 nRows
    let k2 := integersVec k1.2 0 676 nRows
    let v1 := integersVec k2.2 0 10000 nRows
    let v2 := integersVec v1.2 0 10000 nRows
    let okv := randomVec v2.2 nRows
    let okFlags : List Bool := okv.1.map fun q => decide (q < P80)
    let payload : List String :=
      ((((k1.1.map twoLetter).zip v1.1).zip (k2.1.map twoLetter)).zip
          (v2.1.zip okFlags)).map fun p =>
        payloadStr p.1.1.1 p.1.1.2 p.1.2 p.2.1 p.2.2
    let um := randomVec okv.2 nRows
    let urlMask : List Bool := um.1.map fun q => decide (q < P03)
    let cm := randomVec um.2 nRows
    let countryMask : List Bool := cm.1.map fun q => decide (q < P01)
    let urlCells : List Cell :=
      (url0.zip urlMask).map fun p => if p.2 then Cell.null else Cell.str p.1
    let countryCells : List Cell :=
      (country.zip countryMask).map fun p => if p.2 then Cell.null else Cell.str p.1
    let allNulls : List Cell := List.replicate nRows Cell.null
    .ok
      ([⟨"event_id", .int64, ids.map Cell.int⟩,
        ⟨"user_id", .int64, userId.map Cell.int⟩,
        ⟨"session_id", .int64, sessionId.map Cell.int⟩,
        ⟨"event_ts", .timestampMs, ts.map Cell.int⟩,
        ⟨"price", .float64, price.map Cell.flt⟩,
        ⟨"quantity", .int16, quantity.map Cell.int⟩,
        ⟨"score", .float32, score.map Cell.flt⟩,
        ⟨"latency_ms", .float64, latencyMs.map Cell.flt⟩,
        ⟨"rating", .float32, rating.map Cell.flt⟩,
        ⟨"is_refund", .boolean, isRefund.map Cell.bool⟩,
        ⟨"is_mobile", .boolean, isMobile.map Cell.bool⟩,
        ⟨"country", .utf8, countryCells⟩,
        ⟨"channel", .utf8, channel.map Cell.str⟩,
        ⟨"product_sku", .utf8, productSku.map Cell.str⟩,
        ⟨"url", .utf8, urlCells⟩,
        ⟨"payload", .utf8, payload.map Cell.str⟩,
        ⟨"null_comment", .utf8, allNulls⟩,
        ⟨"null_amount", .float64, allNulls⟩,
        ⟨"null_updated_at", .timestampMs, allNulls⟩,
        ⟨"null_flag", .boolean, allNulls⟩],
       cm.2)

/-- The schema `make_rowgroup` declares: names and Arrow types of the 20
columns, in the order of the `pa.table` dict (lines 209-233). -/
def schemaDecl : List (String × PType) :=
  [("event_id", .int64), ("user_id", .int64), ("session_id", .int64),
   ("event_ts", .timestampMs), ("price", .float64), ("quantity", .int16),
   ("score", .float32), ("latency_ms", .float64), ("rating", .float32),
   ("is_refund", .boolean), ("is_mobile", .boolean), ("country", .utf8),
   ("channel", .utf8), ("product_sku", .utf8), ("url", .utf8),
   ("payload", .utf8), ("null_comment", .utf8), ("null_amount", .float64),
   ("null_updated_at", .timestampMs), ("null_flag", .boolean)]

/-- The batch of a synthesizer result, or `[]` on the error path. -/
def resTable : Except String (Table × Rng) → Table
  | .ok p => p.1
  | .error _ => []

/-- Whether the synthesizer returned normally. -/
def resOk : Except String (Table × Rng) → Bool
  | .ok _ => true
  | .error _ => false

/-- The values of the column named `name`, or `[]` if absent. -/
def colValues (tbl : Table) (name : String) : List Cell :=
  match tbl.find? fun c => c.name = name with
  | some c => c.values
  | none => []

/-- Observable effects of `write_to_target` on the output path and the sink:
deleting a pre-existing file (line 251), opening the `ParquetWriter`
(line 268), appending one row group (line 274), closing the writer in the
`finally` block (line 289). -/
inductive Effect
  | unlink
  | openWriter
  | appendBatch (tbl : Table)
  | close
deriving DecidableEq, Repr

/-- How a `write_to_target` call ends: normal return of the observed size
with the number of row groups written; the `RuntimeError` of line 284
carrying the last observed size and the target; a propagated failure of the
synthesizer (a numpy `ValueError`); a propagated sink failure; or fuel
exhaustion of the embedding (shown unreachable). -/
inductive RunResult
  | success (size : Nat) (rowGroups : Nat)
  | capacity (lastSize : Nat) (target : Nat) (rowGroups : Nat)
  | genError (msg : String)
  | sinkError
  | fuelOut
deriving DecidableEq, Repr

/-- Model of the Parquet sink (`pyarrow.parquet.ParquetWriter` together with
`out_path.stat().st_size`): the reported file size as a function of how many
row groups have been appended, plus failure switches for `ParquetWriter(...)`
and `write_table`. -/
structure SinkModel where
  sizeFn : Nat → Nat
  openFails : Bool
  appendFails : Nat → Bool

/-- The stop test of line 281, `size >= target_bytes * (1.0 + overshoot_pct)`,
with the float arithmetic modelled as exact rational arithmetic. -/
def stopCond (targetBytes : Nat) (overshoot : ℚ) (size : Nat) : Prop :=
  (targetBytes : ℚ) * (1 + overshoot) ≤ (size : ℚ)

/-- Deciding the stop test by kernel computation: cross-multiplied into
integer arithmetic (`overshoot` is `num/den` in lowest terms, `den > 0`). -/
instance (targetBytes : Nat) (overshoot : ℚ) (size : Nat) :
    Decidable (stopCond targetBytes overshoot size) :=
  decidable_of_iff'
    ((targetBytes : Int) * ((overshoot.den : Int) + overshoot.num) ≤
      (size : Int) * (overshoot.den : Int)) (by
    have hden : (0 : ℚ) < (overshoot.den : ℚ) := by
      exact_mod_cast Nat.pos_of_ne_zero overshoot.den_nz
    have h1 : (1 + overshoot) =
        (((overshoot.den : Int) + overshoot.num : Int) : ℚ) / ((overshoot.den : Nat) : ℚ) := by
      push_cast
      rw [add_div, div_self (ne_of_gt hden), Rat.num_div_den]
    unfold stopCond
    rw [h1, ← mul_div_assoc, div_le_iff₀ hden]
    constructor
    · intro h
      exact_mod_cast h
    · intro h
      exact_mod_cast h)

/-- The `while True` loop of `write_to_target` (lines 263-286), with `fuel`
an upper bound on remaining iterations. Each iteration: synthesize a batch,
open the writer if this is the first iteration, append the batch, query the
size, return it when `size >= target * (1 + overshoot)`, raise
capacity-exceeded when `row_groups >= max_row_groups`, else continue.
Returns the effects it performed and how it ended. -/
def writeLoop (sink : SinkModel) (targetBytes : Nat) (overshoot : ℚ)
    (rowGroupRows : Nat) (maxRowGroups : Nat) (startTsMs : Int) :
    Nat → Rng → Int → Nat → List Effect × RunResult
  | 0, _, _, _ => ([], .fuelOut)
  | fuel + 1, r, baseId, rowGroups =>
    match makeRowgroup rowGroupRows r baseId startTsMs with
    | .error e => ([], .genError e)
    | .ok (tbl, r') =>
      if rowGroups = 0 ∧ sink.openFails then ([], .sinkError)
      else
        let opens : List Effect := if rowGroups = 0 then [.openWriter] else []
        if sink.appendFails (rowGroups + 1) then (opens, .sinkError)
        else
          let size := sink.sizeFn (rowGroups + 1)
          if stopCond targetBytes overshoot size then
            (opens ++ [.appendBatch tbl], .success size (rowGroups + 1))
          else if maxRowGroups ≤ rowGroups + 1 then
            (opens ++ [.appendBatch tbl], .capacity size targetBytes (rowGroups + 1))
          else
            let rest := writeLoop sink targetBytes overshoot rowGroupRows
              maxRowGroups startTsMs fuel r' (baseId + (rowGroupRows : Int)) (rowGroups + 1)
            (opens ++ [.appendBatch tbl] ++ rest.1, rest.2)

/-- Embedding of `write_to_target` (lines 239-289). `preexists` tells whether
a file already sits at `out_path` (lines 250-251); `nowMs` is the wall-clock
sample `int(time.time() * 1000)` of line 254, an input of the model because
the environment chooses it. The `finally` block closes the writer exactly
when it was opened. Fuel `maxRowGroups + 1` suffices, as proved below. -/
def writeToTarget (sink : SinkModel) (preexists : Bool) (targetBytes : Nat)
    (rowGroupRows : Nat) (seed : Nat) (nowMs : Int) (overshoot : ℚ)
    (maxRowGroups : Nat) : List Effect × RunResult :=
  let pre : List Effect := if preexists then [.unlink] else []
  let run := writeLoop sink targetBytes overshoot rowGroupRows maxRowGroups
    nowMs (maxRowGroups + 1) (mkRng seed) 0 0
  let tr := pre ++ run.1
  (if Effect.openWriter ∈ tr then tr ++ [.close] else tr, run.2)

/-- The row groups a trace appended, in order. -/
def appendedBatches (tr : List Effect) : List Table :=
  tr.filterMap fun e =>
    match e with
    | .appendBatch tbl => some tbl
    | _ => none

/-- State of the file at `out_path`: `none` when absent, `some groups` when
present with the given appended row groups. `unlink` removes it, opening the
writer creates it fresh, each append adds its batch, `close` only flushes. -/
def applyEffect (f : Option (List Table)) : Effect → Option (List Table)
  | .unlink => none
  | .openWriter => some []
  | .appendBatch tbl => some (f.getD [] ++ [tbl])
  | .close => f

/-- Replay a trace of effects on an initial file state. -/
def applyTrace (f : Option (List Table)) (tr : List Effect) : Option (List Table) :=
  tr.foldl applyEffect f

/-- Spec-side synthesis stream: the batches produced from a given generator
state, base row id and time anchor when `k` row groups are drawn in
succession — a function of the seed material and the row parameters only,
used to state what the writer's appended byte stream may depend on. -/
def batchesFrom (rowGroupRows : Nat) (startTsMs : Int) :
    Nat → Rng → Int → List Table
  | 0, _, _ => []
  | k + 1, r, baseId =>
    match makeRowgroup rowGroupRows r baseId startTsMs with
    | .error _ => []
    | .ok (tbl, r') =>
      tbl :: batchesFrom rowGroupRows startTsMs k r' (baseId + (rowGroupRows : Int))

/-- Whether a run result aborts `main` (any propagated exception: the
capacity `RuntimeError`, a synthesizer error, or a sink error). -/
def isFatal : RunResult → Bool
  | .success _ _ => false
  | _ => true

/-- The per-target loop of `main` (lines 362-377): `write_to_target` is
called for each parsed target in order with the shared parameters, and —
since no handler surrounds the call — the first exception propagates and the
remaining targets are never processed. Returns the targets actually
processed, each with its run. -/
def processTargets (sinkFor : Nat → SinkModel) (preexists : Nat → Bool)
    (rowGroupRows : Nat) (seed : Nat) (nowMs : Int) (overshoot : ℚ)
    (maxRowGroups : Nat) : List Nat → List (Nat × (List Effect × RunResult))
  | [] => []
  | t :: rest =>
    let run := writeToTarget (sinkFor t) (preexists t) t rowGroupRows seed
      nowMs overshoot maxRowGroups
    if isFatal run.2 then [(t, run)]
    else (t, run) :: processTargets sinkFor preexists rowGroupRows seed nowMs
      overshoot maxRowGroups rest

/-- The url null mask of a call `makeRowgroup n r _ _` at row `i`: the mask
sample for row `i` — the `(25n + i)`-th stream element the call consumes,
since the twelve scalar sample vectors, the `5n` SKU letters and the eight
further vectors before `url_mask` on line 198 consume `25n` elements — lies
below the 3% threshold. -/
def urlMasked (r : Rng) (n i : Nat) : Prop :=
  unitVal (r.next (r.pos + 25 * n + i)) < P03

/-- The country null mask of a call `makeRowgroup n r _ _` at row `i`: the
mask sample for row `i` — drawn right after the url mask, at offset `26n + i`
(line 199) — lies below the 1% threshold. -/
def countryMasked (r : Rng) (n i : Nat) : Prop :=
  unitVal (r.next (r.pos + 26 * n + i)) < P01

/-!
## Helper lemmas about the synthesizer
-/

theorem draws_fst_length (r : Rng) (n : Nat) : (r.draws n).1.length = n := by
  simp [Rng.draws]

theorem applyAlongAxisJoin_ok (rows : List (List Char)) (h : rows ≠ []) :
    applyAlongAxisJoin rows = .ok (rows.map fun cs => String.mk cs) := by
  simp [applyAlongAxisJoin, List.isEmpty_iff, h]

theorem range_map_ne_nil {α : Type} (n : Nat) (hn : n ≠ 0) (f : Nat → α) :
    (List.range n).map f ≠ [] := by
  simp [List.map_eq_nil_iff, List.range_eq_nil, hn]

/-- With zero rows requested, the synthesizer hits numpy's
`apply_along_axis` failure on an empty iteration axis and raises. -/
theorem makeRowgroup_zero (r : Rng) (b t : Int) :
    makeRowgroup 0 r b t =
      .error "Cannot apply_along_axis when any iteration dimensions are 0" := rfl

/-- For at least one row, the synthesizer returns normally, with the declared
20-column schema and `n` values in every column. -/
theorem makeRowgroup_shape (n : Nat) (hn : 1 ≤ n) (r : Rng) (b t : Int) :
    resOk (makeRowgroup n r b t) = true ∧
    (resTable (makeRowgroup n r b t)).map (fun c => (c.name, c.dtype)) = schemaDecl ∧
    ∀ c ∈ resTable (makeRowgroup n r b t), c.values.length = n := by
  have hn0 : n ≠ 0 := by omega
  simp only [makeRowgroup]
  rw [applyAlongAxisJoin_ok _ (range_map_ne_nil n hn0 _)]
  refine ⟨rfl, rfl, ?_⟩
  intro c hc
  simp only [resTable, List.mem_cons, List.not_mem_nil, or_false] at hc
  rcases hc with h|h|h|h|h|h|h|h|h|h|h|h|h|h|h|h|h|h|h|h <;> subst h <;>
    simp [integersVec, randomVec, zipfVec, lognormalVec, geometricVec,
      standardNormalVec, exponentialVec, betaVec, Rng.draws, List.length_zip]

/-- An error from the synthesizer forces `nRows = 0`. -/
theorem makeRowgroup_error_imp (n : Nat) (r : Rng) (b t : Int) (e : String)
    (h : makeRowgroup n r b t = .error e) : n = 0 := by
  by_contra hn
  have := (makeRowgroup_shape n (by omega) r b t).1
  rw [h] at this
  simp [resOk] at this

/-- The `event_id` column is exactly `base_id .. base_id + n - 1` (line 81). -/
theorem makeRowgroup_event_id (n : Nat) (hn : 1 ≤ n) (r : Rng) (b t : Int) :
    colValues (resTable (makeRowgroup n r b t)) "event_id" =
      (List.range n).map fun i => Cell.int (b + Int.ofNat i) := by
  have hn0 : n ≠ 0 := by omega
  simp only [makeRowgroup]
  rw [applyAlongAxisJoin_ok _ (range_map_ne_nil n hn0 _)]
  simp [colValues, resTable, List.find?]

/-- The four all-null columns (lines 228-231) hold `n` nulls. -/
theorem makeRowgroup_all_null_cols (n : Nat) (hn : 1 ≤ n) (r : Rng) (b t : Int) :
    ∀ name ∈ (["null_comment", "null_amount", "null_updated_at", "null_flag"] :
      List String),
      colValues (resTable (makeRowgroup n r b t)) name = List.replicate n Cell.null := by
  have hn0 : n ≠ 0 := by omega
  intro name hname
  simp only [makeRowgroup]
  rw [applyAlongAxisJoin_ok _ (range_map_ne_nil n hn0 _)]
  simp only [List.mem_cons, List.not_mem_nil, or_false] at hname
  rcases hname with h|h|h|h <;> subst h <;> simp [colValues, resTable, List.find?]

/-- Row `i` of the `url` column is null exactly when its 3%-mask sample fires
(lines 198, 202). -/
theorem makeRowgroup_url_null_iff (n : Nat) (hn : 1 ≤ n) (r : Rng) (b t : Int)
    (i : Nat) (hi : i < n) :
    (colValues (resTable (makeRowgroup n r b t)) "url")[i]? = some Cell.null ↔
      urlMasked r n i := by
  have hn0 : n ≠ 0 := by omega
  simp only [makeRowgroup]
  rw [applyAlongAxisJoin_ok _ (range_map_ne_nil n hn0 _)]
  simp only [resTable, colValues, List.find?]
  simp only [integersVec, randomVec, zipfVec, lognormalVec, geometricVec,
    standardNormalVec, exponentialVec, betaVec, Rng.draws, List.zip_map', List.map_map]
  simp [List.getElem?_map, List.getElem?_range, hi, urlMasked]
  have hp : r.pos + n + n + n + n + n + n + n + n + n + n + n + n + n * 5 + n + n +
      n + n + n + n + n + n + i = r.pos + 25 * n + i := by ring
  rw [hp]

/-- Row `i` of the `country` column is null exactly when its 1%-mask sample
fires (lines 199, 203). -/
theorem makeRowgroup_country_null_iff (n : Nat) (hn : 1 ≤ n) (r : Rng) (b t : Int)
    (i : Nat) (hi : i < n) :
    (colValues (resTable (makeRowgroup n r b t)) "country")[i]? = some Cell.null ↔
      countryMasked r n i := by
  have hn0 : n ≠ 0 := by omega
  simp only [makeRowgroup]
  rw [applyAlongAxisJoin_ok _ (range_map_ne_nil n hn0 _)]
  simp only [resTable, colValues, List.find?]
  simp only [integersVec, randomVec, zipfVec, lognormalVec, geometricVec,
    standardNormalVec, exponentialVec, betaVec, Rng.draws, List.zip_map', List.map_map]
  simp [List.getElem?_map, List.getElem?_range, hi, countryMasked]
  have hp : r.pos + n + n + n + n + n + n + n + n + n + n + n + n + n * 5 + n + n +
      n + n + n + n + n + n + n + i = r.pos + 26 * n + i := by ring
  rw [hp]

/-- Every column other than `url`, `country` and the four all-null columns
holds no null in any row. -/
theorem makeRowgroup_no_other_nulls (n : Nat) (hn : 1 ≤ n) (r : Rng) (b t : Int) :
    ∀ c ∈ resTable (makeRowgroup n r b t),
      c.name ∉ (["url", "country", "null_comment", "null_amount",
        "null_updated_at", "null_flag"] : List String) →
      ∀ v ∈ c.values, v ≠ Cell.null := by
  have hn0 : n ≠ 0 := by omega
  intro c hc hname v hv
  simp only [makeRowgroup] at hc
  rw [applyAlongAxisJoin_ok _ (range_map_ne_nil n hn0 _)] at hc
  simp only [resTable, List.mem_cons, List.not_mem_nil, or_false] at hc
  rcases hc with h|h|h|h|h|h|h|h|h|h|h|h|h|h|h|h|h|h|h|h <;> subst h <;>
    simp at hname <;>
    (intro hvnull
     subst hvnull
     simp at hv)

/-!
## Helper lemmas about the writer loop
-/

theorem appendedBatches_append (a b : List Effect) :
    appendedBatches (a ++ b) = appendedBatches a ++ appendedBatches b := by
  simp [appendedBatches]

/-- The loop itself only opens the writer and appends batches: it neither
unlinks nor closes. -/
theorem writeLoop_mem (sink : SinkModel) (tb : Nat) (ov : ℚ) (rgr mrg : Nat)
    (ts : Int) : ∀ fuel r base rg e,
    e ∈ (writeLoop sink tb ov rgr mrg ts fuel r base rg).1 →
    e = Effect.openWriter ∨ ∃ tbl, e = Effect.appendBatch tbl := by
  intro fuel
  induction fuel with
  | zero =>
    intro r base rg e he
    simp [writeLoop] at he
  | succ fuel ih =>
    intro r base rg e he
    simp only [writeLoop] at he
    cases h : makeRowgroup rgr r base ts with
    | error msg => simp [h] at he
    | ok p =>
      obtain ⟨tbl, r'⟩ := p
      simp only [h] at he
      split at he
      · simp at he
      · split at he
        · split at he <;> simp at he <;> tauto
        · split at he
          · split at he <;> simp at he <;> tauto
          · split at he
            · split at he <;> simp at he <;> tauto
            · rcases List.mem_append.1 he with h1 | h1
              · rcases List.mem_append.1 h1 with h2 | h2
                · split at h2 <;> simp at h2 <;> tauto
                · simp at h2
                  tauto
              · exact ih r' _ (rg + 1) e h1

/-- The row groups the loop appends are exactly the synthesis stream
`batchesFrom`, a function of the generator state, row count, base id and
time anchor alone — however the sink behaves, the sink only decides how many
groups are drawn. -/
theorem writeLoop_appended (sink : SinkModel) (tb : Nat) (ov : ℚ) (rgr mrg : Nat)
    (ts : Int) : ∀ fuel r base rg,
    appendedBatches (writeLoop sink tb ov rgr mrg ts fuel r base rg).1 =
      batchesFrom rgr ts
        (appendedBatches (writeLoop sink tb ov rgr mrg ts fuel r base rg).1).length r base := by
  intro fuel
  induction fuel with
  | zero =>
    intro r base rg
    simp [writeLoop, appendedBatches, batchesFrom]
  | succ fuel ih =>
    intro r base rg
    simp only [writeLoop]
    cases h : makeRowgroup rgr r base ts with
    | error msg => simp [appendedBatches, batchesFrom]
    | ok p =>
      obtain ⟨tbl, r'⟩ := p
      simp only
      split
      · simp [appendedBatches, batchesFrom]
      · split
        · split <;> simp [appendedBatches, batchesFrom]
        · split
          · split <;> simp [appendedBatches, batchesFrom, h]
          · split
            · split <;> simp [appendedBatches, batchesFrom, h]
            · simp only [appendedBatches_append]
              split <;>
                simp [appendedBatches, batchesFrom, h, List.cons.injEq] <;>
                exact ih r' _ (rg + 1)

/-- What a normal return of the loop means: the returned size is the sink
size after the `k`-th append, the stop test holds there and at no earlier
append since entry, and `k - rg` groups were appended. -/
theorem writeLoop_success_spec (sink : SinkModel) (tb : Nat) (ov : ℚ) (rgr mrg : Nat)
    (ts : Int) : ∀ fuel r base rg tr s k,
    writeLoop sink tb ov rgr mrg ts fuel r base rg = (tr, .success s k) →
    rg < k ∧ k ≤ max mrg (rg + 1) ∧ s = sink.sizeFn k ∧ stopCond tb ov s ∧
      (appendedBatches tr).length = k - rg ∧
      ∀ j, rg < j → j < k → ¬ stopCond tb ov (sink.sizeFn j) := by
  intro fuel
  induction fuel with
  | zero =>
    intro r base rg tr s k h
    simp [writeLoop] at h
  | succ fuel ih =>
    intro r base rg tr s k h
    simp only [writeLoop] at h
    cases hmk : makeRowgroup rgr r base ts with
    | error msg => rw [hmk] at h; simp at h
    | ok p =>
      obtain ⟨tbl, r'⟩ := p
      rw [hmk] at h
      simp only at h
      split at h
      · simp at h
      · split at h
        · simp at h
        · split at h
          · rename_i hstop
            simp only [Prod.mk.injEq, RunResult.success.injEq] at h
            obtain ⟨htr, hs, hk⟩ := h
            subst htr
            subst hs
            subst hk
            refine ⟨by omega, Nat.le_max_right _ _, rfl, hstop, ?_, by omega⟩
            rw [appendedBatches_append]
            split <;> simp [appendedBatches]
          · split at h
            · simp at h
            · rename_i hstop hcap
              simp only [Prod.mk.injEq] at h
              obtain ⟨htr, hres⟩ := h
              subst htr
              have hrec := ih r' (base + (rgr : Int)) (rg + 1)
                (writeLoop sink tb ov rgr mrg ts fuel r' (base + (rgr : Int)) (rg + 1)).1 s k
                (by rw [← hres])
              obtain ⟨hk1, hk2, hs, hst, hlen, hrest⟩ := hrec
              rw [Nat.max_eq_left (by omega : rg + 1 + 1 ≤ mrg)] at hk2
              refine ⟨by omega, ?_, hs, hst, ?_, ?_⟩
              · rw [Nat.max_eq_left (by omega : rg + 1 ≤ mrg)]
                omega
              · rw [appendedBatches_append, appendedBatches_append]
                have h0 : appendedBatches (if rg = 0 then [Effect.openWriter] else []) = [] := by
                  split <;> simp [appendedBatches]
                have h1 : appendedBatches [Effect.appendBatch tbl] = [tbl] := by
                  simp [appendedBatches]
                rw [h0, h1]
                simp only [List.length_append, List.nil_append, List.length_cons,
                  List.length_nil]
                omega
              · intro j hj1 hj2
                rcases Nat.lt_or_ge (rg + 1) j with hj | hj
                · exact hrest j hj hj2
                · have : j = rg + 1 := by omega
                  subst this
                  exact hstop

/-- What a capacity-exceeded failure of the loop means: the reported target
is the requested one, the failure happens at row group `max mrg (rg + 1)`,
the reported size is the sink size there, and the stop test held at no
append since entry (through the failing one). -/
theorem writeLoop_capacity_spec (sink : SinkModel) (tb : Nat) (ov : ℚ) (rgr mrg : Nat)
    (ts : Int) : ∀ fuel r base rg tr s tgt k,
    writeLoop sink tb ov rgr mrg ts fuel r base rg = (tr, .capacity s tgt k) →
    tgt = tb ∧ k = max mrg (rg + 1) ∧ s = sink.sizeFn k ∧
      (appendedBatches tr).length = k - rg ∧
      ∀ j, rg < j → j ≤ k → ¬ stopCond tb ov (sink.sizeFn j) := by
  intro fuel
  induction fuel with
  | zero =>
    intro r base rg tr s tgt k h
    simp [writeLoop] at h
  | succ fuel ih =>
    intro r base rg tr s tgt k h
    simp only [writeLoop] at h
    cases hmk : makeRowgroup rgr r base ts with
    | error msg => rw [hmk] at h; simp at h
    | ok p =>
      obtain ⟨tbl, r'⟩ := p
      rw [hmk] at h
      simp only at h
      split at h
      · simp at h
      · split at h
        · simp at h
        · split at h
          · simp at h
          · split at h
            · rename_i hstop hcap
              simp only [Prod.mk.injEq, RunResult.capacity.injEq] at h
              obtain ⟨htr, hs, htgt, hk⟩ := h
              subst htr
              subst hs
              subst htgt
              subst hk
              rw [Nat.max_eq_right hcap]
              refine ⟨rfl, rfl, rfl, ?_, ?_⟩
              · rw [appendedBatches_append]
                split <;> simp [appendedBatches]
              · intro j hj1 hj2
                have : j = rg + 1 := by omega
                subst this
                exact hstop
            · rename_i hstop hcap
              simp only [Prod.mk.injEq] at h
              obtain ⟨htr, hres⟩ := h
              subst htr
              have hrec := ih r' (base + (rgr : Int)) (rg + 1)
                (writeLoop sink tb ov rgr mrg ts fuel r' (base + (rgr : Int)) (rg + 1)).1 s tgt k
                (by rw [← hres])
              obtain ⟨htgt, hk, hs, hlen, hrest⟩ := hrec
              rw [Nat.max_eq_left (by omega : rg + 1 + 1 ≤ mrg)] at hk
              rw [Nat.max_eq_left (by omega : rg + 1 ≤ mrg)]
              refine ⟨htgt, hk, hs, ?_, ?_⟩
              · rw [appendedBatches_append, appendedBatches_append]
                have h0 : appendedBatches (if rg = 0 then [Effect.openWriter] else []) = [] := by
                  split <;> simp [appendedBatches]
                have h1 : appendedBatches [Effect.appendBatch tbl] = [tbl] := by
                  simp [appendedBatches]
                rw [h0, h1]
                simp only [List.length_append, List.nil_append, List.length_cons,
                  List.length_nil]
                omega
              · intro j hj1 hj2
                rcases Nat.lt_or_ge (rg + 1) j with hj | hj
                · exact hrest j hj hj2
                · have : j = rg + 1 := by omega
                  subst this
                  exact hstop

/-- With a non-failing sink, at least one row requested and enough fuel, the
loop ends in a normal return or in capacity-exceeded — never by running out
of fuel or by a propagated exception. -/
theorem writeLoop_no_failure (sink : SinkModel) (tb : Nat) (ov : ℚ) (rgr mrg : Nat)
    (ts : Int) (hopen : sink.openFails = false)
    (happ : ∀ k, sink.appendFails k = false) (hrgr : rgr ≠ 0) :
    ∀ fuel r base rg, mrg ≤ fuel + rg → 1 ≤ fuel →
    (∃ s k, (writeLoop sink tb ov rgr mrg ts fuel r base rg).2 = .success s k) ∨
    (∃ s k, (writeLoop sink tb ov rgr mrg ts fuel r base rg).2 = .capacity s tb k) := by
  intro fuel
  induction fuel with
  | zero =>
    intro r base rg hf h1
    omega
  | succ fuel ih =>
    intro r base rg hf _
    simp only [writeLoop]
    cases hmk : makeRowgroup rgr r base ts with
    | error msg =>
      exact absurd (makeRowgroup_error_imp rgr r base ts msg hmk) hrgr
    | ok p =>
      obtain ⟨tbl, r'⟩ := p
      simp only [hopen, happ, Bool.false_eq_true, and_false, if_false]
      split
      · exact Or.inl ⟨_, _, rfl⟩
      · split
        · exact Or.inr ⟨_, _, rfl⟩
        · rename_i hstop hcap
          exact ih r' (base + (rgr : Int)) (rg + 1) (by omega) (by omega)

/-- With a non-failing sink and at least one row per group, the loop's trace
is the writer-open (on first entry) followed by exactly its appends. -/
theorem writeLoop_trace_form (sink : SinkModel) (tb : Nat) (ov : ℚ) (rgr mrg : Nat)
    (ts : Int) (hopen : sink.openFails = false)
    (happ : ∀ k, sink.appendFails k = false) (hrgr : rgr ≠ 0) :
    ∀ fuel r base rg, (rg = 0 → 1 ≤ fuel) →
    (writeLoop sink tb ov rgr mrg ts fuel r base rg).1 =
      (if rg = 0 then [Effect.openWriter] else []) ++
        (appendedBatches (writeLoop sink tb ov rgr mrg ts fuel r base rg).1).map
          Effect.appendBatch := by
  intro fuel
  induction fuel with
  | zero =>
    intro r base rg hf
    have hrg : ¬ rg = 0 := fun h => by simpa using hf h
    simp [writeLoop, appendedBatches, hrg]
  | succ fuel ih =>
    intro r base rg hf
    simp only [writeLoop]
    cases hmk : makeRowgroup rgr r base ts with
    | error msg =>
      exact absurd (makeRowgroup_error_imp rgr r base ts msg hmk) hrgr
    | ok p =>
      obtain ⟨tbl, r'⟩ := p
      simp only [hopen, happ, Bool.false_eq_true, and_false, if_false]
      split
      · rw [appendedBatches_append]
        split <;> simp [appendedBatches]
      · split
        · rw [appendedBatches_append]
          split <;> simp [appendedBatches]
        · have ihr := ih r' (base + (rgr : Int)) (rg + 1) (by omega)
          conv_lhs => rw [ihr]
          rw [appendedBatches_append, appendedBatches_append]
          have h0 : appendedBatches (if rg = 0 then [Effect.openWriter] else []) = [] := by
            split <;> simp [appendedBatches]
          have h1 : appendedBatches [Effect.appendBatch tbl] = [tbl] := by
            simp [appendedBatches]
          rw [h0, h1]
          simp [appendedBatches]

/-- Replaying appends on an existing file accumulates the batches. -/
theorem applyTrace_appends (acc : List Table) (bs : List Table) :
    applyTrace (some acc) (bs.map Effect.appendBatch) = some (acc ++ bs) := by
  induction bs generalizing acc with
  | nil => simp [applyTrace]
  | cons b bs ih =>
    simp only [List.map_cons, applyTrace, List.foldl_cons]
    have h1 : applyEffect (some acc) (Effect.appendBatch b) = some (acc ++ [b]) := rfl
    rw [h1]
    have h2 := ih (acc ++ [b])
    simp only [applyTrace] at h2
    rw [h2]
    simp

/-- Replaying a full run's trace — optional unlink, writer open, the appends,
close — on any initial file state leaves exactly the run's batches. -/
theorem applyTrace_shape (f0 : Option (List Table)) (pre : Bool) (bs : List Table) :
    applyTrace f0 ((if pre then [Effect.unlink] else []) ++
      Effect.openWriter :: (bs.map Effect.appendBatch ++ [Effect.close])) = some bs := by
  have hmid : applyTrace (some []) (bs.map Effect.appendBatch ++ [Effect.close]) =
      some bs := by
    simp only [applyTrace, List.foldl_append]
    have := applyTrace_appends [] bs
    simp only [applyTrace] at this
    rw [this]
    rfl
  cases pre <;>
    simp only [if_true, if_false, List.nil_append, List.singleton_append, applyTrace,
      List.foldl_cons] <;>
    simpa [applyTrace, applyEffect] using hmid

/-- The appends of a full run's trace in shape form. -/
theorem appendedBatches_shape (pre : Bool) (bs : List Table) :
    appendedBatches ((if pre then [Effect.unlink] else []) ++
      Effect.openWriter :: (bs.map Effect.appendBatch ++ [Effect.close])) = bs := by
  cases pre <;>
    simp [appendedBatches, List.filterMap_append, List.filterMap_map, Function.comp] <;>
    induction bs <;> simp_all

/-- A full run's trace in shape form closes the sink exactly once. -/
theorem count_close_shape (pre : Bool) (bs : List Table) :
    (((if pre then [Effect.unlink] else []) ++
      Effect.openWriter :: (bs.map Effect.appendBatch ++ [Effect.close])).count
        Effect.close) = 1 := by
  cases pre <;>
    simp [List.count_append, List.count_cons, List.count_eq_zero, List.mem_map]

/-- The wrapper's unlink prefix and close suffix append no batches: the
appended batches of a `write_to_target` run are those of its loop. -/
theorem writeToTarget_appended_eq (sink : SinkModel) (preexists : Bool)
    (tb rgr seed : Nat) (now : Int) (ov : ℚ) (mrg : Nat) :
    appendedBatches (writeToTarget sink preexists tb rgr seed now ov mrg).1 =
      appendedBatches
        (writeLoop sink tb ov rgr mrg now (mrg + 1) (mkRng seed) 0 0).1 := by
  unfold writeToTarget
  cases preexists <;>
    simp only [Bool.false_eq_true, if_false, if_true, List.nil_append] <;>
    split <;>
    simp [appendedBatches_append, appendedBatches]

/-- The full-run trace, in shape form, with its appends given by the
synthesis stream. -/
theorem writeToTarget_trace_shape (sink : SinkModel) (preexists : Bool)
    (tb rgr seed : Nat) (now : Int) (ov : ℚ) (mrg : Nat)
    (hopen : sink.openFails = false) (happ : ∀ k, sink.appendFails k = false)
    (hrgr : rgr ≠ 0) :
    (writeToTarget sink preexists tb rgr seed now ov mrg).1 =
      (if preexists then [Effect.unlink] else []) ++
        Effect.openWriter ::
          ((appendedBatches (writeToTarget sink preexists tb rgr seed now ov mrg).1).map
              Effect.appendBatch ++ [Effect.close]) := by
  have hform := writeLoop_trace_form sink tb ov rgr mrg now hopen happ hrgr
    (mrg + 1) (mkRng seed) 0 0 (fun _ => by omega)
  rw [writeToTarget_appended_eq]
  unfold writeToTarget
  simp only [if_pos rfl] at hform
  have hmem : Effect.openWriter ∈
      (if preexists then [Effect.unlink] else []) ++
        (writeLoop sink tb ov rgr mrg now (mrg + 1) (mkRng seed) 0 0).1 := by
    rw [hform]
    cases preexists <;> simp
  simp only
  rw [if_pos hmem]
  conv_lhs => rw [hform]
  cases preexists <;> simp

/-- Concatenated event ids of `k` successive row groups from base `b`. -/
theorem batchesFrom_event_ids (rgr : Nat) (ts : Int) (hrgr : rgr ≠ 0) :
    ∀ k r b,
    ((batchesFrom rgr ts k r b).map fun tbl => colValues tbl "event_id").flatten =
      (List.range (k * rgr)).map fun j => Cell.int (b + Int.ofNat j) := by
  intro k
  induction k with
  | zero => intro r b; simp [batchesFrom]
  | succ k ih =>
    intro r b
    simp only [batchesFrom]
    cases hmk : makeRowgroup rgr r b ts with
    | error msg => exact absurd (makeRowgroup_error_imp rgr r b ts msg hmk) hrgr
    | ok p =>
      obtain ⟨tbl, r'⟩ := p
      simp only [List.map_cons, List.flatten_cons]
      have hcol : colValues tbl "event_id" =
          (List.range rgr).map fun i => Cell.int (b + Int.ofNat i) := by
        have := makeRowgroup_event_id rgr (by omega) r b ts
        rw [hmk] at this
        simpa [resTable] using this
      rw [hcol, ih r' (b + (rgr : Int))]
      rw [show (k + 1) * rgr = rgr + k * rgr by ring, List.range_add, List.map_append,
        List.map_map]
      congr 1
      apply List.map_congr_left
      intro a ha
      simp only [Function.comp_apply]
      congr 1
      simp only [Int.ofNat_eq_natCast]
      push_cast
      ring

/-- The `i`-th of `k` successive row groups carries ids
`b + i*rgr .. b + (i+1)*rgr - 1`. -/
theorem batchesFrom_event_ids_at (rgr : Nat) (ts : Int) (hrgr : rgr ≠ 0) :
    ∀ k r b i, i < k →
    colValues ((batchesFrom rgr ts k r b).getD i []) "event_id" =
      (List.range rgr).map fun j => Cell.int (b + Int.ofNat (i * rgr + j)) := by
  intro k
  induction k with
  | zero => intro r b i hi; omega
  | succ k ih =>
    intro r b i hi
    simp only [batchesFrom]
    cases hmk : makeRowgroup rgr r b ts with
    | error msg => exact absurd (makeRowgroup_error_imp rgr r b ts msg hmk) hrgr
    | ok p =>
      obtain ⟨tbl, r'⟩ := p
      cases i with
      | zero =>
        simp only [List.getD_cons_zero]
        have := makeRowgroup_event_id rgr (by omega) r b ts
        rw [hmk] at this
        simp only [resTable] at this
        rw [this]
        apply List.map_congr_left
        intro j hj
        congr 1
        simp only [Int.ofNat_eq_natCast]
        push_cast
        ring
      | succ i =>
        simp only [List.getD_cons_succ]
        rw [ih r' (b + (rgr : Int)) i (by omega)]
        apply List.map_congr_left
        intro j hj
        congr 1
        simp only [Int.ofNat_eq_natCast]
        push_cast
        ring

/-!
## The claims
-/

/-- C1 (counterexample): the claim asserts that two independent invocations of
`write_to_target` agreeing on seed, rows-per-row-group, target and codec
produce byte-identical output even though each samples `time.time()` on line
254 independently. Two runs that differ only in that wall-clock sample
produce different output (the `event_ts` column shifts with it), so the
synthesized stream is not a function of `(seed, row parameters)` alone. -/
theorem writeToTarget_depends_on_clock :
    writeToTarget ⟨fun _ => 1000000000, false, fun _ => false⟩ false 1 1 1 0 0 5 ≠
      writeToTarget ⟨fun _ => 1000000000, false, fun _ => false⟩ false 1 1 1 1 0 5 := by
  decide

/-- C1 (amended): determinism holds once the sampled `start_ts_ms` is counted
among the inputs. Whatever the sink reports and whether or not the output
file pre-existed, the row groups a run appends are exactly a prefix of the
synthesis stream `batchesFrom` determined by the seed, the rows-per-row-group
and the wall-clock sample; the sink influences only how long that prefix is.
Hence two runs agreeing on seed, row parameters and the wall-clock sample
write identical row-group streams. -/
theorem writeToTarget_deterministic_given_clock (sink : SinkModel) (preexists : Bool)
    (tb rgr seed : Nat) (now : Int) (ov : ℚ) (mrg : Nat) :
    appendedBatches (writeToTarget sink preexists tb rgr seed now ov mrg).1 =
      batchesFrom rgr now
        (appendedBatches (writeToTarget sink preexists tb rgr seed now ov mrg).1).length
        (mkRng seed) 0 := by
  rw [writeToTarget_appended_eq]
  exact writeLoop_appended sink tb ov rgr mrg now (mrg + 1) (mkRng seed) 0 0

/-- C2: when `write_to_target` returns normally, its result is the sink size
at the stopping iteration, is at least `target_bytes`, and exceeds
`target_bytes * (1 + overshoot)` by at most the size contribution of the
final row group. -/
theorem writeToTarget_size_bounds (sink : SinkModel) (preexists : Bool)
    (tb rgr seed : Nat) (now : Int) (ov : ℚ) (mrg s k : Nat) (htb : 1 ≤ tb)
    (hov : 0 ≤ ov) (hrgr : 1 ≤ rgr)
    (hmono : ∀ i j, i ≤ j → sink.sizeFn i ≤ sink.sizeFn j)
    (hzero : sink.sizeFn 0 = 0)
    (hres : (writeToTarget sink preexists tb rgr seed now ov mrg).2 = .success s k) :
    s = sink.sizeFn k ∧ tb ≤ s ∧
      (s : ℚ) ≤ (tb : ℚ) * (1 + ov) +
        ((sink.sizeFn k : ℚ) - (sink.sizeFn (k - 1) : ℚ)) := by
  have h2 : (writeLoop sink tb ov rgr mrg now (mrg + 1) (mkRng seed) 0 0).2 =
      .success s k := hres
  have hspec := writeLoop_success_spec sink tb ov rgr mrg now (mrg + 1) (mkRng seed) 0 0
    (writeLoop sink tb ov rgr mrg now (mrg + 1) (mkRng seed) 0 0).1 s k (by rw [← h2])
  obtain ⟨hk0, hkmax, hs, hstop, hlen, hprev⟩ := hspec
  have htbq : (1 : ℚ) ≤ (tb : ℚ) := by exact_mod_cast htb
  have hstopq : (tb : ℚ) * (1 + ov) ≤ (s : ℚ) := hstop
  refine ⟨hs, ?_, ?_⟩
  · have h4 : (tb : ℚ) ≤ (tb : ℚ) * (1 + ov) := by nlinarith
    have h5 : (tb : ℚ) ≤ (s : ℚ) := h4.trans hstopq
    exact_mod_cast h5
  · have hneg : ¬ stopCond tb ov (sink.sizeFn (k - 1)) := by
      rcases Nat.lt_or_ge 1 k with hk | hk
      · exact hprev (k - 1) (by omega) (by omega)
      · have hk1 : k = 1 := by omega
        subst hk1
        simp only [Nat.sub_self, hzero]
        intro hcon
        unfold stopCond at hcon
        norm_num at hcon
        nlinarith
    unfold stopCond at hneg
    push_neg at hneg
    rw [hs]
    linarith

theorem writeToTarget_size_bounds_witness :
    1200 = (600 : Nat) * 2 ∧ (1000 : Nat) ≤ 1200 ∧
      ((1200 : Nat) : ℚ) ≤ ((1000 : Nat) : ℚ) * (1 + (0 : ℚ)) +
        (((600 * 2 : Nat) : ℚ) - ((600 * 1 : Nat) : ℚ)) :=
  writeToTarget_size_bounds ⟨fun j => 600 * j, false, fun _ => false⟩ false
    1000 1 1 0 0 5 1200 2 (by decide) (by norm_num)
    (by decide) (fun i j hij => Nat.mul_le_mul_left 600 hij) rfl (by decide)

/-- C3 (counterexample): `make_rowgroup` with `row_count = 0` raises — numpy's
`apply_along_axis` rejects the empty iteration axis of the SKU letter matrix
(line 154) — rather than returning an empty, well-typed batch. -/
theorem makeRowgroup_zero_rows_raises :
    resOk (makeRowgroup 0 (mkRng 1) 0 0) = false := by decide

/-- C3 (amended): for every `row_count ≥ 1`, any generator state, any base
row id and any start time, `make_rowgroup` returns without raising a batch
with exactly `row_count` rows and all 20 columns present with the schema's
declared names and types; `row_count = 0` instead raises in numpy. -/
theorem makeRowgroup_total_on_positive_rows (n : Nat) (hn : 1 ≤ n) (r : Rng)
    (b t : Int) :
    resOk (makeRowgroup n r b t) = true ∧
    (resTable (makeRowgroup n r b t)).map (fun c => (c.name, c.dtype)) = schemaDecl ∧
    ∀ c ∈ resTable (makeRowgroup n r b t), c.values.length = n :=
  makeRowgroup_shape n hn r b t

theorem makeRowgroup_total_on_positive_rows_witness :
    resOk (makeRowgroup 1 (mkRng 1) 0 0) = true ∧
    (resTable (makeRowgroup 1 (mkRng 1) 0 0)).map (fun c => (c.name, c.dtype)) =
      schemaDecl ∧
    ∀ c ∈ resTable (makeRowgroup 1 (mkRng 1) 0 0), c.values.length = 1 :=
  makeRowgroup_total_on_positive_rows 1 (by decide) (mkRng 1) 0 0

/-- C4: across any run of `write_to_target`, the `event_id` values of the
appended row groups, in emission order, are exactly the contiguous range
`[0, k * row_group_rows)` with no gaps or repeats; the `i`-th appended batch
carries ids `i * row_group_rows .. (i+1) * row_group_rows - 1`, so the base
row id advances by `row_group_rows` per iteration. -/
theorem writeToTarget_event_ids_contiguous (sink : SinkModel) (preexists : Bool)
    (tb rgr seed : Nat) (now : Int) (ov : ℚ) (mrg : Nat) (hrgr : 1 ≤ rgr) :
    (((appendedBatches (writeToTarget sink preexists tb rgr seed now ov mrg).1).map
        fun tbl => colValues tbl "event_id").flatten =
      (List.range
          ((appendedBatches (writeToTarget sink preexists tb rgr seed now ov mrg).1).length
            * rgr)).map fun j => Cell.int (Int.ofNat j)) ∧
    ∀ i,
      i < (appendedBatches (writeToTarget sink preexists tb rgr seed now ov mrg).1).length →
      colValues
          ((appendedBatches (writeToTarget sink preexists tb rgr seed now ov mrg).1).getD
            i []) "event_id" =
        (List.range rgr).map fun j => Cell.int (Int.ofNat (i * rgr + j)) := by
  rw [writeToTarget_appended_eq]
  have hloop := writeLoop_appended sink tb ov rgr mrg now (mrg + 1) (mkRng seed) 0 0
  constructor
  · conv_lhs => rw [hloop]
    rw [batchesFrom_event_ids rgr now (by omega)]
    apply List.map_congr_left
    intro j _
    congr 1
    simp [Int.ofNat_eq_natCast]
  · intro i hi
    conv_lhs => rw [hloop]
    rw [batchesFrom_event_ids_at rgr now (by omega) _ _ _ i hi]
    apply List.map_congr_left
    intro j _
    congr 1
    simp [Int.ofNat_eq_natCast]

theorem writeToTarget_event_ids_contiguous_witness :
    ((appendedBatches
        (writeToTarget ⟨fun j => 600 * j, false, fun _ => false⟩ false 1000 1 1 0 0
          5).1).map fun tbl => colValues tbl "event_id").flatten =
      (List.range
          ((appendedBatches
            (writeToTarget ⟨fun j => 600 * j, false, fun _ => false⟩ false 1000 1 1 0 0
              5).1).length * 1)).map fun j => Cell.int (Int.ofNat j) :=
  (writeToTarget_event_ids_contiguous ⟨fun j => 600 * j, false, fun _ => false⟩ false
    1000 1 1 0 0 5 (by decide)).1

/-- C5: in every batch `make_rowgroup` returns, the four all-null columns are
null in every row regardless of seed; the `url` (resp. `country`) column is
null at row `i` exactly when its independent 3% (resp. 1%) mask sample fires;
and every other column contains no null in any row. -/
theorem makeRowgroup_null_placement (n : Nat) (hn : 1 ≤ n) (r : Rng) (b t : Int) :
    (∀ name ∈ (["null_comment", "null_amount", "null_updated_at", "null_flag"] :
        List String),
      colValues (resTable (makeRowgroup n r b t)) name = List.replicate n Cell.null) ∧
    (∀ i, i < n →
      ((colValues (resTable (makeRowgroup n r b t)) "url")[i]? = some Cell.null ↔
        urlMasked r n i)) ∧
    (∀ i, i < n →
      ((colValues (resTable (makeRowgroup n r b t)) "country")[i]? = some Cell.null ↔
        countryMasked r n i)) ∧
    (∀ c ∈ resTable (makeRowgroup n r b t),
      c.name ∉ (["url", "country", "null_comment", "null_amount", "null_updated_at",
        "null_flag"] : List String) →
      ∀ v ∈ c.values, v ≠ Cell.null) :=
  ⟨makeRowgroup_all_null_cols n hn r b t,
   fun i hi => makeRowgroup_url_null_iff n hn r b t i hi,
   fun i hi => makeRowgroup_country_null_iff n hn r b t i hi,
   makeRowgroup_no_other_nulls n hn r b t⟩

theorem makeRowgroup_null_placement_witness :
    colValues (resTable (makeRowgroup 2 (mkRng 1) 0 0)) "null_flag" =
        List.replicate 2 Cell.null ∧
    ((colValues (resTable (makeRowgroup 2 (mkRng 1) 0 0)) "url")[0]? = some Cell.null ↔
      urlMasked (mkRng 1) 2 0) ∧
    ((colValues (resTable (makeRowgroup 2 (mkRng 1) 0 0)) "country")[1]? =
        some Cell.null ↔ countryMasked (mkRng 1) 2 1) :=
  ⟨(makeRowgroup_null_placement 2 (by decide) (mkRng 1) 0 0).1 "null_flag" (by decide),
   (makeRowgroup_null_placement 2 (by decide) (mkRng 1) 0 0).2.1 0 (by decide),
   (makeRowgroup_null_placement 2 (by decide) (mkRng 1) 0 0).2.2.1 1 (by decide)⟩

/-- C6: for every cap `max_row_groups ≥ 1` and every (non-failing) sink, even
one whose size never reaches the threshold, `write_to_target` terminates
within `max_row_groups` row groups, either returning a size that meets the
stop test or failing with capacity-exceeded carrying the last observed size
and the target; and since the size check of line 281 precedes the cap check
of line 283, a run whose size condition is met on exactly the
`max_row_groups`-th row group returns normally. -/
theorem writeToTarget_cap_terminates (sink : SinkModel) (preexists : Bool)
    (tb rgr seed : Nat) (now : Int) (ov : ℚ) (mrg : Nat) (hmrg : 1 ≤ mrg)
    (hrgr : 1 ≤ rgr) (hopen : sink.openFails = false)
    (happf : ∀ k, sink.appendFails k = false) :
    (appendedBatches (writeToTarget sink preexists tb rgr seed now ov mrg).1).length
        ≤ mrg ∧
    ((∃ s k, (writeToTarget sink preexists tb rgr seed now ov mrg).2 = .success s k ∧
        k ≤ mrg) ∨
      ∃ s, (writeToTarget sink preexists tb rgr seed now ov mrg).2 =
        .capacity s tb mrg) ∧
    (stopCond tb ov (sink.sizeFn mrg) →
      ∃ s k, (writeToTarget sink preexists tb rgr seed now ov mrg).2 = .success s k) := by
  have h2 : (writeToTarget sink preexists tb rgr seed now ov mrg).2 =
      (writeLoop sink tb ov rgr mrg now (mrg + 1) (mkRng seed) 0 0).2 := rfl
  have htot := writeLoop_no_failure sink tb ov rgr mrg now hopen happf (by omega)
    (mrg + 1) (mkRng seed) 0 0 (by omega) (by omega)
  rw [writeToTarget_appended_eq, h2]
  rcases htot with ⟨s, k, hsk⟩ | ⟨s, k, hsk⟩
  · have hspec := writeLoop_success_spec sink tb ov rgr mrg now (mrg + 1) (mkRng seed)
      0 0 (writeLoop sink tb ov rgr mrg now (mrg + 1) (mkRng seed) 0 0).1 s k
      (by rw [← hsk])
    obtain ⟨hk0, hkmax, hs, hstop, hlen, hprev⟩ := hspec
    rw [Nat.max_eq_left (by omega)] at hkmax
    exact ⟨by omega, Or.inl ⟨s, k, hsk, hkmax⟩, fun _ => ⟨s, k, hsk⟩⟩
  · have hspec := writeLoop_capacity_spec sink tb ov rgr mrg now (mrg + 1) (mkRng seed)
      0 0 (writeLoop sink tb ov rgr mrg now (mrg + 1) (mkRng seed) 0 0).1 s tb k
      (by rw [← hsk])
    obtain ⟨-, hk, hs, hlen, hnever⟩ := hspec
    rw [Nat.max_eq_left (by omega)] at hk
    subst hk
    refine ⟨by omega, Or.inr ⟨s, hsk⟩, ?_⟩
    intro hstop
    exact absurd hstop (hnever k (by omega) (by omega))

theorem writeToTarget_cap_terminates_witness :
    (appendedBatches
        (writeToTarget ⟨fun _ => 1, false, fun _ => false⟩ false 1000 1 1 0 0 1).1).length
      ≤ 1 ∧
    ((∃ s k, (writeToTarget ⟨fun _ => 1, false, fun _ => false⟩ false 1000 1 1 0 0
        1).2 = .success s k ∧ k ≤ 1) ∨
      ∃ s, (writeToTarget ⟨fun _ => 1, false, fun _ => false⟩ false 1000 1 1 0 0 1).2 =
        .capacity s 1000 1) ∧
    (stopCond 1000 0 1 →
      ∃ s k, (writeToTarget ⟨fun _ => 1, false, fun _ => false⟩ false 1000 1 1 0 0
        1).2 = .success s k) :=
  writeToTarget_cap_terminates ⟨fun _ => 1, false, fun _ => false⟩ false 1000 1 1 0 0 1
    (by decide) (by decide) rfl (fun _ => rfl)

/-- C7 (counterexample): the claim asserts a capacity-exceeded failure on one
target leaves the remaining pending targets still processed. With two equal
targets and a sink stuck at 1 byte under a cap of one row group, the first
target fails and `main`'s loop — which has no handler around
`write_to_target` — never processes the second. -/
theorem processTargets_abort_counterexample :
    (processTargets (fun _ => ⟨fun _ => 1, false, fun _ => false⟩) (fun _ => false)
        1 1 0 0 1 [1000, 1000]).map Prod.fst ≠ [1000, 1000] := by
  decide

/-- C7 (amended): the first propagated failure — capacity-exceeded or any
other exception — aborts `main`'s per-target loop: exactly the targets up to
and including the first failing one are processed, and targets after it are
not. -/
theorem processTargets_stops_at_first_fatal (sinkFor : Nat → SinkModel)
    (preexists : Nat → Bool) (rgr seed : Nat) (now : Int) (ov : ℚ) (mrg : Nat)
    (targets : List Nat) :
    (processTargets sinkFor preexists rgr seed now ov mrg targets).map Prod.fst =
      targets.take (targets.findIdx (fun t => isFatal
        (writeToTarget (sinkFor t) (preexists t) t rgr seed now ov mrg).2) + 1) := by
  induction targets with
  | nil => simp [processTargets]
  | cons t rest ih =>
    simp only [processTargets, List.findIdx_cons]
    by_cases hf : isFatal (writeToTarget (sinkFor t) (preexists t) t rgr seed now ov
        mrg).2 = true
    · simp [hf]
    · simp only [Bool.not_eq_true] at hf
      simp [hf, ih]

/-- C8: on every execution path of `write_to_target` on which the sink was
opened — normal return, capacity-exceeded, a propagated synthesizer error or
a propagated sink failure — the `finally` block of line 287 closes the sink
exactly once; when the sink was never opened it is not closed. -/
theorem writeToTarget_close_exactly_once (sink : SinkModel) (preexists : Bool)
    (tb rgr seed : Nat) (now : Int) (ov : ℚ) (mrg : Nat) :
    (writeToTarget sink preexists tb rgr seed now ov mrg).1.count Effect.close =
      if Effect.openWriter ∈ (writeToTarget sink preexists tb rgr seed now ov mrg).1
      then 1 else 0 := by
  have hcl : Effect.close ∉ (if preexists then [Effect.unlink] else []) ++
      (writeLoop sink tb ov rgr mrg now (mrg + 1) (mkRng seed) 0 0).1 := by
    intro hmem
    rcases List.mem_append.1 hmem with h | h
    · cases preexists <;> simp at h
    · rcases writeLoop_mem sink tb ov rgr mrg now (mrg + 1) (mkRng seed) 0 0 _ h with
        h1 | ⟨tbl, h1⟩ <;> simp at h1
  by_cases hmem : Effect.openWriter ∈ (if preexists then [Effect.unlink] else []) ++
      (writeLoop sink tb ov rgr mrg now (mrg + 1) (mkRng seed) 0 0).1
  · have hW : (writeToTarget sink preexists tb rgr seed now ov mrg).1 =
        ((if preexists then [Effect.unlink] else []) ++
          (writeLoop sink tb ov rgr mrg now (mrg + 1) (mkRng seed) 0 0).1) ++
          [Effect.close] := by
      simp only [writeToTarget]
      rw [if_pos hmem]
    rw [hW, if_pos (List.mem_append_left _ hmem), List.count_append,
      List.count_eq_zero.2 hcl]
    simp
  · have hW : (writeToTarget sink preexists tb rgr seed now ov mrg).1 =
        (if preexists then [Effect.unlink] else []) ++
          (writeLoop sink tb ov rgr mrg now (mrg + 1) (mkRng seed) 0 0).1 := by
      simp only [writeToTarget]
      rw [if_neg hmem]
    rw [hW, if_neg hmem]
    exact List.count_eq_zero.2 hcl

/-- C9: when `write_to_target` fails with capacity-exceeded, the failure
reports the requested target, happens after exactly one row group whenever
`max_row_groups ≤ 1` (the cap of line 283 is only checked after a full
iteration), and the partially written file — holding every row group appended
so far — is closed and left on disk, not deleted: replaying the run's trace
on any initial file state leaves exactly the appended batches. -/
theorem writeToTarget_partial_file_on_capacity (sink : SinkModel) (preexists : Bool)
    (tb rgr seed : Nat) (now : Int) (ov : ℚ) (mrg s tgt k : Nat) (hmrg : mrg ≤ 1)
    (hrgr : 1 ≤ rgr) (hopen : sink.openFails = false)
    (happf : ∀ j, sink.appendFails j = false)
    (hres : (writeToTarget sink preexists tb rgr seed now ov mrg).2 =
      .capacity s tgt k) :
    tgt = tb ∧ k = 1 ∧
    (appendedBatches (writeToTarget sink preexists tb rgr seed now ov mrg).1).length
      = 1 ∧
    (∀ f0 : Option (List Table),
      applyTrace f0 (writeToTarget sink preexists tb rgr seed now ov mrg).1 =
        some (appendedBatches (writeToTarget sink preexists tb rgr seed now ov mrg).1)) ∧
    (writeToTarget sink preexists tb rgr seed now ov mrg).1.count Effect.close = 1 := by
  have h2 : (writeLoop sink tb ov rgr mrg now (mrg + 1) (mkRng seed) 0 0).2 =
      .capacity s tgt k := hres
  have hspec := writeLoop_capacity_spec sink tb ov rgr mrg now (mrg + 1) (mkRng seed)
    0 0 (writeLoop sink tb ov rgr mrg now (mrg + 1) (mkRng seed) 0 0).1 s tgt k
    (by rw [← h2])
  obtain ⟨htgt, hk, -, hlen, -⟩ := hspec
  have hk1 : k = 1 := by
    rw [Nat.max_eq_right (by omega)] at hk
    omega
  have hshape := writeToTarget_trace_shape sink preexists tb rgr seed now ov mrg hopen
    happf (by omega)
  refine ⟨htgt, hk1, ?_, ?_, ?_⟩
  · rw [writeToTarget_appended_eq]
    omega
  · intro f0
    conv_lhs => rw [hshape]
    exact applyTrace_shape f0 preexists _
  · conv_lhs => rw [hshape]
    exact count_close_shape preexists _

theorem writeToTarget_partial_file_on_capacity_witness :
    (appendedBatches
        (writeToTarget ⟨fun _ => 1, false, fun _ => false⟩ false 10 1 1 0 0 1).1).length
      = 1 ∧
    applyTrace (some [])
        (writeToTarget ⟨fun _ => 1, false, fun _ => false⟩ false 10 1 1 0 0 1).1 =
      some (appendedBatches
        (writeToTarget ⟨fun _ => 1, false, fun _ => false⟩ false 10 1 1 0 0 1).1) ∧
    (writeToTarget ⟨fun _ => 1, false, fun _ => false⟩ false 10 1 1 0 0 1).1.count
        Effect.close = 1 :=
  ⟨(writeToTarget_partial_file_on_capacity ⟨fun _ => 1, false, fun _ => false⟩ false
      10 1 1 0 0 1 1 10 1 (by decide) (by decide) rfl (fun _ => rfl)
      (by decide)).2.2.1,
   (writeToTarget_partial_file_on_capacity ⟨fun _ => 1, false, fun _ => false⟩ false
      10 1 1 0 0 1 1 10 1 (by decide) (by decide) rfl (fun _ => rfl)
      (by decide)).2.2.2.1 (some []),
   (writeToTarget_partial_file_on_capacity ⟨fun _ => 1, false, fun _ => false⟩ false
      10 1 1 0 0 1 1 10 1 (by decide) (by decide) rfl (fun _ => rfl)
      (by decide)).2.2.2.2⟩

/-- C10: `write_to_target` deletes any pre-existing file at the output path —
and only then — before opening the sink, and never unlinks afterwards; the
final file state after replaying its trace is exactly the batches of the
current run, whatever was on disk before; and the appended stream does not
depend on whether a previous file existed. -/
theorem writeToTarget_overwrites_destructively (sink : SinkModel) (preexists : Bool)
    (tb rgr seed : Nat) (now : Int) (ov : ℚ) (mrg : Nat) (hrgr : 1 ≤ rgr)
    (hopen : sink.openFails = false) (happf : ∀ j, sink.appendFails j = false) :
    (∀ f0 : Option (List Table),
      applyTrace f0 (writeToTarget sink preexists tb rgr seed now ov mrg).1 =
        some (appendedBatches (writeToTarget sink preexists tb rgr seed now ov mrg).1)) ∧
    (preexists = true →
      (writeToTarget sink preexists tb rgr seed now ov mrg).1.head? =
        some Effect.unlink) ∧
    ((writeToTarget sink preexists tb rgr seed now ov mrg).1.count Effect.unlink =
      if preexists then 1 else 0) ∧
    appendedBatches (writeToTarget sink true tb rgr seed now ov mrg).1 =
      appendedBatches (writeToTarget sink false tb rgr seed now ov mrg).1 := by
  have hshape := writeToTarget_trace_shape sink preexists tb rgr seed now ov mrg hopen
    happf (by omega)
  refine ⟨?_, ?_, ?_, ?_⟩
  · intro f0
    conv_lhs => rw [hshape]
    exact applyTrace_shape f0 preexists _
  · intro hpre
    subst hpre
    rw [hshape]
    simp
  · conv_lhs => rw [hshape]
    cases preexists <;>
      simp [List.count_append, List.count_cons, List.count_eq_zero, List.mem_map]
  · rw [writeToTarget_appended_eq, writeToTarget_appended_eq]

theorem writeToTarget_overwrites_destructively_witness :
    applyTrace (some [])
        (writeToTarget ⟨fun j => 600 * j, false, fun _ => false⟩ true 1000 1 1 0 0 5).1 =
      some (appendedBatches
        (writeToTarget ⟨fun j => 600 * j, false, fun _ => false⟩ true 1000 1 1 0 0
          5).1) ∧
    (writeToTarget ⟨fun j => 600 * j, false, fun _ => false⟩ true 1000 1 1 0 0
        5).1.head? = some Effect.unlink :=
  ⟨(writeToTarget_overwrites_destructively ⟨fun j => 600 * j, false, fun _ => false⟩
      true 1000 1 1 0 0 5 (by decide) rfl (fun _ => rfl)).1 (some []),
   (writeToTarget_overwrites_destructively ⟨fun j => 600 * j, false, fun _ => false⟩
      true 1000 1 1 0 0 5 (by decide) rfl (fun _ => rfl)).2.1 rfl⟩

end CreateParquet
